import Mathlib

/-!
Verification development for `watch_braze_release.py`, a release-notes
watcher: it loads a cursor (`state.json`), fetches a release-notes page,
locates the newest release section (primary strategy: `div.details_title[id]`
markers; secondary strategy: scanning h2/h3 headings for the word "release"
plus a year token), summarizes the extracted text, posts it to a webhook and
only then rewrites the cursor.

The development is a shallow embedding: the Python functions are translated
into executable Lean definitions.  External collaborators (HTTP fetch, the
LLM call, the webhook POST) are modelled as environment-supplied outcomes.
The behaviour of the two external parsing libraries the code relies on
(`json.loads` / `json.dump`, and `BeautifulSoup` with the `html.parser`
builder) is modelled for the fragment of inputs exercised here: JSON without
floats or `\u` escapes, and HTML without void elements, comments, CDATA
(script raw text) or unterminated tags.  Machine strings are Lean `String`s
(lists of characters, matching Python's code-point view for the ASCII and
BMP inputs used).
-/

/-! ## Python-style string primitives -/

/-- Characters stripped by Python's `str.strip()` (ASCII whitespace set). -/
def isPySpace (c : Char) : Bool :=
  c = ' ' || c = '\t' || c = '\n' || c = '\r' || c = '\x0b' || c = '\x0c'

/-- Drop leading characters satisfying `p`, then trailing ones: the list
form of Python's `str.strip()` family. -/
def stripWhileL (p : Char → Bool) (l : List Char) : List Char :=
  ((l.dropWhile p).reverse.dropWhile p).reverse

/-- Python `str.strip()` (no argument): strip ASCII whitespace both ends. -/
def pstrip (s : String) : String :=
  String.mk (stripWhileL isPySpace s.toList)

/-- Python `str.strip("-")` used on the synthetic slug. -/
def stripDashes (s : String) : String :=
  String.mk (stripWhileL (fun c => c = '-') s.toList)

/-- Python `str.split()` with no argument: maximal runs of non-whitespace
(fuel-driven scan; the initial fuel always suffices since every step
consumes at least one character). -/
def splitWsGo : Nat → List Char → List (List Char)
  | 0, _ => []
  | fuel + 1, l =>
    match l.dropWhile isPySpace with
    | [] => []
    | c :: rest =>
      (c :: rest.takeWhile (fun d => !isPySpace d)) ::
        splitWsGo fuel (rest.dropWhile (fun d => !isPySpace d))

/-- Python `str.split()` with no argument. -/
def splitWsL (l : List Char) : List (List Char) :=
  splitWsGo (l.length + 1) l

/-- Python `sep.join(parts)`. -/
def joinSep (sep : String) : List String → String
  | [] => ""
  | [a] => a
  | a :: b :: rest => a ++ sep ++ joinSep sep (b :: rest)

/-- Python `" ".join(s.split())`: collapse all whitespace runs to single
spaces and trim the ends. -/
def collapseWs (s : String) : String :=
  joinSep " " ((splitWsL s.toList).map String.mk)

/-- Python `s.replace(old, new)` for a single-character pattern. -/
def charReplace (s : String) (old new : Char) : String :=
  String.mk (s.toList.map (fun c => if c = old then new else c))

/-- Python `str.title()`: a cased character is uppercased when the previous
character is not cased, lowercased otherwise (ASCII letters here). -/
def pyTitleGo : Bool → List Char → List Char
  | _, [] => []
  | prevCased, c :: rest =>
    (if c.isAlpha then (if prevCased then c.toLower else c.toUpper) else c) ::
      pyTitleGo c.isAlpha rest

/-- Python `str.title()`. -/
def pyTitle (s : String) : String :=
  String.mk (pyTitleGo false s.toList)

/-- Python slicing `s[:n]` (first `n` code points). -/
def pyslice (s : String) (n : Nat) : String :=
  String.mk (s.toList.take n)

/-- Emit a completed newline run: `re.sub(r"\n{3,}", "\n\n", ·)` turns each
maximal run of three or more newlines into exactly two (Python's scan is
leftmost and greedy) and leaves shorter runs alone. -/
def emitNlRun (k : Nat) : List Char :=
  List.replicate (if 3 ≤ k then 2 else k) '\n'

/-- Single-pass scan for the newline-collapsing substitution, carrying the
length of the pending newline run. -/
def collapseNlGo : Nat → List Char → List Char
  | pending, [] => emitNlRun pending
  | pending, c :: rest =>
    if c = '\n' then collapseNlGo (pending + 1) rest
    else emitNlRun pending ++ c :: collapseNlGo 0 rest

/-- The model of `re.sub(r"\n{3,}", "\n\n", ·)`. -/
def collapseNl (l : List Char) : List Char :=
  collapseNlGo 0 l

/-- String form of the newline-collapsing substitution. -/
def collapseNlS (s : String) : String :=
  String.mk (collapseNl s.toList)

/-! ## A model of the JSON values handled by `json.loads` / `json.dump`
(integers, strings, booleans, null, arrays, objects; no floats and no
`\uXXXX` escapes, which the repository's cursor files never use). -/

inductive PyJson where
  | null : PyJson
  | bool : Bool → PyJson
  | num : Int → PyJson
  | str : String → PyJson
  | arr : List PyJson → PyJson
  | obj : List (String × PyJson) → PyJson

/-- Python `dict.get(key, default)` (objects produced by the JSON parser
have unique keys, held at first-insertion position like a Python dict). -/
def dictGet : List (String × PyJson) → String → PyJson → PyJson
  | [], _, d => d
  | (k, v) :: rest, key, d => if k = key then v else dictGet rest key d

/-- Python `dict[key] = value`: overwrite in place, or append a new key. -/
def dictSet : List (String × PyJson) → String → PyJson → List (String × PyJson)
  | [], k, v => [(k, v)]
  | (k', v') :: rest, k, v =>
    if k' = k then (k', v) :: rest else (k', v') :: dictSet rest k v

/-- Python `==` between the detected id (a `str`) and the loaded
`last_seen` value, which may be any JSON value: equal only when the loaded
value is a string with the same contents. -/
def jsonEqStr (j : PyJson) (s : String) : Bool :=
  match j with
  | .str t => t == s
  | _ => false

/-- JSON whitespace skipped by `json.loads`. -/
def jsonWs (c : Char) : Bool :=
  c = ' ' || c = '\t' || c = '\n' || c = '\r'

/-- Parse the body of a JSON string literal (after the opening quote);
returns the decoded contents and the input after the closing quote. -/
def parseJStr : Nat → List Char → Option (List Char × List Char)
  | 0, _ => none
  | _ + 1, [] => none
  | _ + 1, '"' :: rest => some ([], rest)
  | fuel + 1, '\\' :: e :: rest =>
    let dec : Option Char :=
      if e = '"' then some '"'
      else if e = '\\' then some '\\'
      else if e = '/' then some '/'
      else if e = 'n' then some '\n'
      else if e = 't' then some '\t'
      else if e = 'r' then some '\r'
      else if e = 'b' then some '\x08'
      else if e = 'f' then some '\x0c'
      else none
    match dec with
    | none => none
    | some c =>
      match parseJStr fuel rest with
      | none => none
      | some (cs, rem) => some (c :: cs, rem)
  | fuel + 1, c :: rest =>
    match parseJStr fuel rest with
    | none => none
    | some (cs, rem) => some (c :: cs, rem)

/-- Insert a parsed field into an object under construction, keeping
Python-dict semantics for duplicate keys (value overwritten in place). -/
def objInsert (fs : List (String × PyJson)) (k : String) (v : PyJson) :
    List (String × PyJson) :=
  dictSet fs k v

mutual

/-- Recursive-descent model of `json.loads` on one value; returns the value
and the unconsumed input. -/
def parseJVal : Nat → List Char → Option (PyJson × List Char)
  | 0, _ => none
  | fuel + 1, cs =>
    match cs.dropWhile jsonWs with
    | 'n' :: 'u' :: 'l' :: 'l' :: rest => some (.null, rest)
    | 't' :: 'r' :: 'u' :: 'e' :: rest => some (.bool true, rest)
    | 'f' :: 'a' :: 'l' :: 's' :: 'e' :: rest => some (.bool false, rest)
    | '"' :: rest =>
      match parseJStr (rest.length + 1) rest with
      | none => none
      | some (body, rem) => some (.str (String.mk body), rem)
    | '[' :: rest =>
      (match rest.dropWhile jsonWs with
       | ']' :: rem => some (.arr [], rem)
       | _ =>
         match parseJItems fuel rest with
         | none => none
         | some (xs, rem) => some (.arr xs, rem))
    | '{' :: rest =>
      (match rest.dropWhile jsonWs with
       | '}' :: rem => some (.obj [], rem)
       | _ =>
         match parseJFields fuel rest [] with
         | none => none
         | some (fs, rem) => some (.obj fs, rem))
    | '-' :: rest =>
      let ds := rest.takeWhile Char.isDigit
      if ds = [] then none
      else some (.num (-(Int.ofNat (String.mk ds).toNat!)),
                 rest.dropWhile Char.isDigit)
    | c :: rest =>
      if c.isDigit then
        let ds := c :: rest.takeWhile Char.isDigit
        some (.num (Int.ofNat (String.mk ds).toNat!),
              rest.dropWhile Char.isDigit)
      else none
    | [] => none

/-- Comma-separated array items. -/
def parseJItems : Nat → List Char → Option (List PyJson × List Char)
  | 0, _ => none
  | fuel + 1, cs =>
    match parseJVal fuel cs with
    | none => none
    | some (v, rest) =>
      match rest.dropWhile jsonWs with
      | ',' :: rest2 =>
        (match parseJItems fuel rest2 with
         | none => none
         | some (xs, rem) => some (v :: xs, rem))
      | ']' :: rem => some ([v], rem)
      | _ => none

/-- Comma-separated object fields. -/
def parseJFields : Nat → List Char → List (String × PyJson) →
    Option (List (String × PyJson) × List Char)
  | 0, _, _ => none
  | fuel + 1, cs, acc =>
    match cs.dropWhile jsonWs with
    | '"' :: rest =>
      (match parseJStr (rest.length + 1) rest with
       | none => none
       | some (key, rem) =>
         match rem.dropWhile jsonWs with
         | ':' :: rem2 =>
           (match parseJVal fuel rem2 with
            | none => none
            | some (v, rem3) =>
              let acc2 := objInsert acc (String.mk key) v
              match rem3.dropWhile jsonWs with
              | ',' :: rem4 => parseJFields fuel rem4 acc2
              | '}' :: rem4 => some (acc2, rem4)
              | _ => none)
         | _ => none)
    | _ => none

end

/-- Model of `json.loads`: the whole input must be consumed (modulo
trailing JSON whitespace). -/
def parseJson (s : String) : Option PyJson :=
  match parseJVal (s.length + 1) s.toList with
  | none => none
  | some (v, rest) => if rest.dropWhile jsonWs = [] then some v else none

/-- Escape one character the way `json.dump(..., ensure_ascii=False)` does. -/
def jsonEsc (c : Char) : String :=
  if c = '"' then "\\\""
  else if c = '\\' then "\\\\"
  else if c = '\n' then "\\n"
  else if c = '\t' then "\\t"
  else if c = '\r' then "\\r"
  else if c = '\x08' then "\\b"
  else if c = '\x0c' then "\\f"
  else if c.val < 32 then
    let d1 := Nat.digitChar (c.val.toNat / 16)
    let d2 := Nat.digitChar (c.val.toNat % 16)
    "\\u00" ++ String.mk [d1, d2]
  else String.singleton c

/-- JSON string literal serialization. -/
def jsonQuote (s : String) : String :=
  "\"" ++ String.join (s.toList.map jsonEsc) ++ "\""

/-- Indentation padding used by `json.dump(..., indent=2)`. -/
def jsonPad (n : Nat) : String :=
  String.mk (List.replicate n ' ')

mutual

/-- Model of `json.dump(value, f, indent=2, ensure_ascii=False)`. -/
def dumpVal : Nat → PyJson → String
  | _, .null => "null"
  | _, .bool true => "true"
  | _, .bool false => "false"
  | _, .num n => toString n
  | _, .str s => jsonQuote s
  | _, .arr [] => "[]"
  | ind, .arr (x :: xs) =>
    "[\n" ++ dumpItems (ind + 2) (x :: xs) ++ "\n" ++ jsonPad ind ++ "]"
  | _, .obj [] => "\x7b\x7d"
  | ind, .obj (f :: fs) =>
    "\x7b\n" ++ dumpFields (ind + 2) (f :: fs) ++ "\n" ++ jsonPad ind ++ "\x7d"

/-- Array items, one per line, comma separated. -/
def dumpItems : Nat → List PyJson → String
  | _, [] => ""
  | ind, [x] => jsonPad ind ++ dumpVal ind x
  | ind, x :: y :: xs =>
    jsonPad ind ++ dumpVal ind x ++ ",\n" ++ dumpItems ind (y :: xs)

/-- Object fields, one per line, comma separated. -/
def dumpFields : Nat → List (String × PyJson) → String
  | _, [] => ""
  | ind, [(k, v)] => jsonPad ind ++ jsonQuote k ++ ": " ++ dumpVal ind v
  | ind, (k, v) :: g :: fs =>
    jsonPad ind ++ jsonQuote k ++ ": " ++ dumpVal ind v ++ ",\n" ++
      dumpFields ind (g :: fs)

end

/-! ## Cursor store (`load_state` / `save_state`) -/

/-- The default state returned on every recoverable cursor-load failure. -/
def defaultState : PyJson := .obj [("last_seen_id", .str "")]

/-- `load_state()`: the cursor file's contents (`none` when the file is
absent).  Missing file, contents empty after stripping, or contents not
parseable as JSON all fall back to the default state without failing. -/
def load_state : Option String → PyJson
  | none => defaultState
  | some contents =>
    let raw := pstrip contents
    if raw = "" then defaultState
    else
      match parseJson raw with
      | some j => j
      | none => defaultState

/-- `save_state(state)`: the exact file contents written (`json.dump` with
`indent=2`, `ensure_ascii=False`, plus a trailing newline). -/
def save_state (state : PyJson) : String :=
  dumpVal 0 state ++ "\n"


/-! ## HTML document model

A parsed document is a forest of nodes: text nodes (`NavigableString`s) and
element nodes with a tag name, attributes and children, mirroring the tree
BeautifulSoup builds with the `html.parser` builder. -/

inductive HNode where
  | text : String → HNode
  | elem : String → List (String × String) → List HNode → HNode

abbrev Forest := List HNode

abbrev HPath := List Nat

mutual

/-- Content equality on nodes, modelling BeautifulSoup's `Tag.__eq__` /
`NavigableString.__eq__` (two nodes are equal when they render the same
markup; attribute order is compared literally here, which coincides for the
documents used in this development). -/
def nodeBeq : HNode → HNode → Bool
  | .text s, .text t => s == t
  | .elem t1 a1 c1, .elem t2 a2 c2 => t1 == t2 && a1 == a2 && forestBeq c1 c2
  | _, _ => false

def forestBeq : List HNode → List HNode → Bool
  | [], [] => true
  | n :: ns, m :: ms => nodeBeq n m && forestBeq ns ms
  | _, _ => false

end

/-- Whether a node is an element (a bs4 `Tag`). -/
def isElemNode : HNode → Bool
  | .elem _ _ _ => true
  | .text _ => false

/-- Attribute access, `tag.get(name)`. -/
def attrGet (n : HNode) (key : String) : Option String :=
  match n with
  | .elem _ attrs _ => List.lookup key attrs
  | .text _ => none

/-- Attribute access with default, `tag.get(name, default)`. -/
def attrGetD (n : HNode) (key default : String) : String :=
  (attrGet n key).getD default

/-- Whether an element's (whitespace-separated) `class` attribute contains
the given token, as CSS class selectors match it. -/
def hasClassToken (n : HNode) (cls : String) : Bool :=
  match attrGet n "class" with
  | some v => ((splitWsL v.toList).map String.mk).contains cls
  | none => false

/-- Tag-name access. -/
def tagName : HNode → String
  | .elem t _ _ => t
  | .text _ => ""

/-! ### Rendering (`str(node)`, bs4's minimal formatter) -/

/-- Escape one text character the way bs4's minimal formatter does. -/
def escTextC (c : Char) : String :=
  if c = '&' then "&amp;"
  else if c = '<' then "&lt;"
  else if c = '>' then "&gt;"
  else String.singleton c

/-- Escape a text node's contents. -/
def escText (s : String) : String :=
  String.join (s.toList.map escTextC)

/-- Escape one attribute-value character. -/
def escAttrC (c : Char) : String :=
  if c = '&' then "&amp;"
  else if c = '"' then "&quot;"
  else if c = '<' then "&lt;"
  else if c = '>' then "&gt;"
  else String.singleton c

/-- Escape an attribute value. -/
def escAttr (s : String) : String :=
  String.join (s.toList.map escAttrC)

/-- Render an attribute list. -/
def renderAttrs (attrs : List (String × String)) : String :=
  String.join (attrs.map (fun kv => " " ++ kv.1 ++ "=\"" ++ escAttr kv.2 ++ "\""))

mutual

/-- `str(node)`: render a node back to markup. -/
def renderNode : HNode → String
  | .text s => escText s
  | .elem t a cs =>
    "<" ++ t ++ renderAttrs a ++ ">" ++ renderForest cs ++ "</" ++ t ++ ">"

/-- Render a forest (also `str(soup)` for the whole document). -/
def renderForest : List HNode → String
  | [] => ""
  | n :: rest => renderNode n ++ renderForest rest

end

/-! ### Text extraction (`get_text`) -/

mutual

/-- All descendant strings of a node in document order (`tag.strings`). -/
def nodeStrings : HNode → List String
  | .text s => [s]
  | .elem _ _ cs => forestStrings cs

/-- All strings of a forest in document order. -/
def forestStrings : List HNode → List String
  | [] => []
  | n :: rest => nodeStrings n ++ forestStrings rest

end

/-- `soup.get_text(sep)`: all strings joined with the separator. -/
def getTextSepF (sep : String) (f : Forest) : String :=
  joinSep sep (forestStrings f)

/-- `tag.get_text(sep, strip=True)`: each string stripped, empty strings
dropped, remainder joined with the separator. -/
def getTextStripNode (sep : String) (n : HNode) : String :=
  joinSep sep (((nodeStrings n).map pstrip).filter (fun s => s != ""))

/-! ### Removal of non-content elements (`tag.decompose`) -/

mutual

/-- Remove `script`/`style`/`noscript` elements from a node (empty result
when the node itself is removed). -/
def decomposeNode : HNode → List HNode
  | .text s => [.text s]
  | .elem t a cs =>
    if t = "script" || t = "style" || t = "noscript" then []
    else [.elem t a (decomposeForest cs)]

/-- Remove `script`/`style`/`noscript` elements from a forest. -/
def decomposeForest : List HNode → List HNode
  | [] => []
  | n :: rest => decomposeNode n ++ decomposeForest rest

end

/-! ### Document-order traversal with positions -/

mutual

/-- Preorder (document-order) listing of a node's subtree, each node tagged
with its path from the root. -/
def preNode (p : HPath) : HNode → List (HPath × HNode)
  | .text s => [(p, .text s)]
  | .elem t a cs => (p, .elem t a cs) :: preForest p 0 cs

/-- Preorder listing of a forest whose members are children `i, i+1, ...`
of the node at path `p`. -/
def preForest (p : HPath) (i : Nat) : List HNode → List (HPath × HNode)
  | [] => []
  | n :: rest => preNode (p ++ [i]) n ++ preForest p (i + 1) rest

end

/-- Document-order listing of a whole document. -/
def preorderF (f : Forest) : List (HPath × HNode) :=
  preForest [] 0 f

/-- Node at a path. -/
def getAt : List HNode → HPath → Option HNode
  | _, [] => none
  | f, [i] => f.get? i
  | f, i :: rest =>
    match f.get? i with
    | some (.elem _ _ cs) => getAt cs rest
    | _ => none

/-- The sibling nodes following the node at path `p`, in order (the nodes
`node.next_siblings` iterates over). -/
def siblingsAfter (f : Forest) (p : HPath) : List HNode :=
  match p with
  | [] => []
  | _ =>
    let parentKids : List HNode :=
      if p.dropLast = [] then f
      else
        match getAt f p.dropLast with
        | some (.elem _ _ cs) => cs
        | _ => []
    parentKids.drop (p.getLastD 0 + 1)

/-- The document-order entries strictly after the node at path `p`
(starting with its own descendants), as `find_next` traverses them. -/
def entriesAfter (f : Forest) (p : HPath) : List (HPath × HNode) :=
  ((preorderF f).dropWhile (fun q => q.1 != p)).tail

/-! ## HTML parsing (model of `BeautifulSoup(markup, "html.parser")`)

The tokenizer follows `html.parser` with `convert_charrefs=True`: data runs
extend to the next literal `<` and have their character references decoded;
`<` followed by an ASCII letter opens a start tag, `</` an end tag; a `<`
that opens no construct is emitted as data.  The tree builder nests start
tags, closes to the matching open tag on an end tag (ignoring unmatched end
tags) and closes everything left open at end of input.  Comments/doctypes
are skipped to the next `>`, and void elements, CDATA (raw `script` text)
and unterminated tags are outside the modelled fragment. -/

/-- Decode the HTML character references used by the modelled fragment
(the `;`-terminated core set), leaving other `&`s as data, as
`html.unescape` does. -/
def unescapeGo : Nat → List Char → List Char
  | 0, _ => []
  | _ + 1, [] => []
  | fuel + 1, c :: rest =>
    if c = '&' then
      if rest.take 3 = ['l', 't', ';'] then '<' :: unescapeGo fuel (rest.drop 3)
      else if rest.take 3 = ['g', 't', ';'] then '>' :: unescapeGo fuel (rest.drop 3)
      else if rest.take 4 = ['a', 'm', 'p', ';'] then
        '&' :: unescapeGo fuel (rest.drop 4)
      else if rest.take 5 = ['q', 'u', 'o', 't', ';'] then
        '"' :: unescapeGo fuel (rest.drop 5)
      else if rest.take 4 = ['#', '3', '9', ';'] then
        '\'' :: unescapeGo fuel (rest.drop 4)
      else '&' :: unescapeGo fuel rest
    else c :: unescapeGo fuel rest

/-- Entity decoding, at fuel sufficient for the whole input (every step
consumes at least one character). -/
def unescapeL (l : List Char) : List Char :=
  unescapeGo (l.length + 1) l

inductive Tok where
  | text : List Char → Tok
  | startTag : String → List (String × String) → Bool → Tok
  | endTag : String → Tok

/-- Characters ending a tag name (whitespace, `>`, `/`). -/
def tagStop (c : Char) : Bool :=
  isPySpace c || c = '>' || c = '/'

/-- Scan a start tag's attribute region up to `>`; returns the attributes,
a self-closing flag and the input after `>`, or `none` when the input ends
before `>` (an unterminated tag). -/
def lexAttrsGo : Nat → List Char → Option (List (String × String) × Bool × List Char)
  | 0, _ => none
  | fuel + 1, cs =>
    match cs.dropWhile isPySpace with
    | [] => none
    | '>' :: rest => some ([], false, rest)
    | '/' :: rest =>
      (match rest.dropWhile isPySpace with
       | '>' :: rem => some ([], true, rem)
       | _ => lexAttrsGo fuel rest)
    | c :: rest =>
      let cs0 := c :: rest
      let an := cs0.takeWhile (fun d => !(isPySpace d || d = '=' || d = '>' || d = '/'))
      if an = [] then lexAttrsGo fuel rest
      else
        let name := String.mk (an.map Char.toLower)
        let cs1 := (cs0.dropWhile
          (fun d => !(isPySpace d || d = '=' || d = '>' || d = '/'))).dropWhile isPySpace
        match cs1 with
        | '=' :: cs2 =>
          (match cs2.dropWhile isPySpace with
           | '"' :: cs3 =>
             let v := cs3.takeWhile (fun d => d != '"')
             (match cs3.dropWhile (fun d => d != '"') with
              | [] => none
              | _ :: cs4 =>
                match lexAttrsGo fuel cs4 with
                | none => none
                | some (attrs, sc, rem) =>
                  some ((name, String.mk (unescapeL v)) :: attrs, sc, rem))
           | '\'' :: cs3 =>
             let v := cs3.takeWhile (fun d => d != '\'')
             (match cs3.dropWhile (fun d => d != '\'') with
              | [] => none
              | _ :: cs4 =>
                match lexAttrsGo fuel cs4 with
                | none => none
                | some (attrs, sc, rem) =>
                  some ((name, String.mk (unescapeL v)) :: attrs, sc, rem))
           | cs3 =>
             let v := cs3.takeWhile (fun d => !(isPySpace d || d = '>'))
             match lexAttrsGo fuel (cs3.dropWhile (fun d => !(isPySpace d || d = '>'))) with
             | none => none
             | some (attrs, sc, rem) =>
               some ((name, String.mk (unescapeL v)) :: attrs, sc, rem))
        | _ =>
          match lexAttrsGo fuel cs1 with
          | none => none
          | some (attrs, sc, rem) => some ((name, "") :: attrs, sc, rem)

/-- Result of trying to lex one markup construct after a literal `<`. -/
inductive LexRes where
  | tok : Tok → List Char → LexRes
  | skip : List Char → LexRes
  | fail : LexRes

/-- Lex the construct following a literal `<` (the input here starts just
after the `<`). -/
def lexAngle (cs : List Char) : LexRes :=
  match cs with
  | [] => .fail
  | '/' :: rest =>
    let body := rest.takeWhile (fun d => d != '>')
    (match rest.dropWhile (fun d => d != '>') with
     | [] => .fail
     | _ :: rem =>
       let name := String.mk ((body.takeWhile (fun d => !tagStop d)).map Char.toLower)
       .tok (.endTag name) rem)
  | '!' :: rest =>
    (match rest.dropWhile (fun d => d != '>') with
     | [] => .fail
     | _ :: rem => .skip rem)
  | c :: _ =>
    if c.isAlpha then
      let name := String.mk ((cs.takeWhile (fun d => !tagStop d)).map Char.toLower)
      let after := cs.dropWhile (fun d => !tagStop d)
      match lexAttrsGo (after.length + 1) after with
      | none => .fail
      | some (attrs, sc, rem) => .tok (.startTag name attrs sc) rem
    else .fail

/-- Tokenize markup (fuel-driven; every step consumes at least one
character, so the initial fuel always suffices). -/
def tokenizeGo : Nat → List Char → List Tok
  | 0, _ => []
  | fuel + 1, cs =>
    let txt := cs.takeWhile (fun d => d != '<')
    let rest := cs.dropWhile (fun d => d != '<')
    let pre : List Tok := if txt = [] then [] else [.text (unescapeL txt)]
    pre ++
      match rest with
      | [] => []
      | _ :: rest' =>
        match lexAngle rest' with
        | .tok t rem => t :: tokenizeGo fuel rem
        | .skip rem => tokenizeGo fuel rem
        | .fail => .text ['<'] :: tokenizeGo fuel rest'

/-- An open element under construction. -/
structure Frame where
  fname : String
  fattrs : List (String × String)
  fchildren : List HNode

/-- Append a finished node to the innermost open element (or to the
top-level forest). -/
def insertNode : List HNode → List Frame → HNode → List HNode × List Frame
  | base, [], n => (base ++ [n], [])
  | base, f :: fs, n => (base, { f with fchildren := f.fchildren ++ [n] } :: fs)

/-- Continue closing frames that absorb an already-closed node, until a
frame with the given name has been closed. -/
def closeUntilWrap (nm : String) (base : List HNode) (n : HNode) :
    List Frame → List HNode × List Frame
  | [] => (base ++ [n], [])
  | g :: gs =>
    let node := HNode.elem g.fname g.fattrs (g.fchildren ++ [n])
    if g.fname = nm then insertNode base gs node
    else closeUntilWrap nm base node gs

/-- Close open elements until one with the given name has been closed
(callers guard on its presence). -/
def closeUntil (nm : String) (base : List HNode) (st : List Frame) :
    List HNode × List Frame :=
  match st with
  | [] => (base, [])
  | f :: fs =>
    let node := HNode.elem f.fname f.fattrs f.fchildren
    if f.fname = nm then insertNode base fs node
    else closeUntilWrap nm base node fs

/-- Fold an already-closed node through every remaining open frame. -/
def wrapAll (base : List HNode) : HNode → List Frame → List HNode
  | n, [] => base ++ [n]
  | n, g :: gs => wrapAll base (HNode.elem g.fname g.fattrs (g.fchildren ++ [n])) gs

/-- Close every element still open at end of input. -/
def closeAll (base : List HNode) : List Frame → List HNode
  | [] => base
  | f :: fs => wrapAll base (HNode.elem f.fname f.fattrs f.fchildren) fs

/-- Whether some open element has the given name. -/
def stackHasName (st : List Frame) (nm : String) : Bool :=
  st.any (fun f => f.fname == nm)

/-- Build the tree from the token stream. -/
def buildGo : List Tok → List HNode → List Frame → List HNode
  | [], base, st => closeAll base st
  | .text s :: ts, base, st =>
    let r := insertNode base st (.text (String.mk s))
    buildGo ts r.1 r.2
  | .startTag nm attrs sc :: ts, base, st =>
    if sc then
      let r := insertNode base st (.elem nm attrs [])
      buildGo ts r.1 r.2
    else buildGo ts base (⟨nm, attrs, []⟩ :: st)
  | .endTag nm :: ts, base, st =>
    if stackHasName st nm then
      let r := closeUntil nm base st
      buildGo ts r.1 r.2
    else buildGo ts base st

/-- `BeautifulSoup(markup, "html.parser")` for the modelled fragment. -/
def parseHtml (s : String) : Forest :=
  buildGo (tokenizeGo (s.toList.length + 1) s.toList) [] []


/-! ## `normalize_text` -/

/-- `normalize_text(html_fragment)`: parse the fragment, decompose
`script`/`style`/`noscript`, take `get_text("\n")`, collapse runs of three
or more newlines to two, strip the ends. -/
def normalize_text (html_fragment : String) : String :=
  let soup := decomposeForest (parseHtml html_fragment)
  let text := getTextSepF "\n" soup
  pstrip (collapseNlS text)

/-! ## Primary strategy: `extract_latest_by_details_title` -/

/-- The predicate of the CSS selector `div.details_title[id]`. -/
def isDetailsTitleWithId (n : HNode) : Bool :=
  isElemNode n && tagName n == "div" && hasClassToken n "details_title" &&
    (attrGet n "id").isSome

/-- `soup.select("div.details_title[id]")`: matching elements in document
order, with their positions. -/
def selectDetailsTitle (f : Forest) : List (HPath × HNode) :=
  (preorderF f).filter (fun q => isDetailsTitleWithId q.2)

/-- `node.find_next(tag)`: the first element with the given name strictly
after the node in document order (starting with its own descendants). -/
def findNextTag (f : Forest) (p : HPath) (tag : String) : Option HNode :=
  (((entriesAfter f p).filter
      (fun q => isElemNode q.2 && tagName q.2 == tag)).head?).map (fun q => q.2)

/-- `str(node.parent)`: the parent of a top-level node is the soup itself,
so the whole document is rendered in that case. -/
def parentRender (f : Forest) (p : HPath) : String :=
  if p.dropLast = [] then renderForest f
  else
    match getAt f p.dropLast with
    | some n => renderNode n
    | none => ""

/-- `extract_latest_by_details_title(soup)`. -/
def extract_latest_by_details_title (f : Forest) : Option (String × String) :=
  match selectDetailsTitle f with
  | [] => none
  | (p, latest) :: _ =>
    let latest_id := pstrip (attrGetD latest "id" "")
    if latest_id = "" then none
    else
      match findNextTag f p "details" with
      | none => some (latest_id, normalize_text (parentRender f p))
      | some details => some (latest_id, normalize_text (renderNode details))

/-! ## Secondary strategy: `extract_latest_by_release_heading` -/

/-- Python regex word characters (`\w`, ASCII). -/
def isWordChar (c : Char) : Bool :=
  c.isAlphanum || c = '_'

/-- A word boundary holds after a match when the input ends or continues
with a non-word character. -/
def boundaryAfter : List Char → Bool
  | [] => true
  | c :: _ => !isWordChar c

/-- Case-insensitive literal prefix match (pattern given in lowercase);
returns the remainder on success. -/
def stripPrefCI : List Char → List Char → Option (List Char)
  | [], cs => some cs
  | _ :: _, [] => none
  | p :: ps, c :: cs => if c.toLower = p then stripPrefCI ps cs else none

/-- `re.search(r"\b<word>\b", t, re.IGNORECASE) is not None` for a pattern
of word characters: scan every position, tracking whether the previous
character is a word character. -/
def searchWordGo (pat : List Char) : Bool → List Char → Bool
  | _, [] => false
  | prevW, c :: rest =>
    (!prevW &&
      (match stripPrefCI pat (c :: rest) with
       | some after => boundaryAfter after
       | none => false)) ||
    searchWordGo pat (isWordChar c) rest

/-- `re.search(r"\brelease\b", t, flags=re.IGNORECASE) is not None`. -/
def containsReleaseWord (t : String) : Bool :=
  searchWordGo ("release".toList) false t.toList

/-- Scan for `re.search(r"\b20\d{2}\b", t) is not None`. -/
def searchYearGo : Bool → List Char → Bool
  | _, [] => false
  | prevW, c :: rest =>
    (!prevW &&
      (match c :: rest with
       | '2' :: '0' :: d1 :: d2 :: after =>
         d1.isDigit && d2.isDigit && boundaryAfter after
       | _ => false)) ||
    searchYearGo (isWordChar c) rest

/-- `re.search(r"\b20\d{2}\b", t) is not None`. -/
def containsYearToken (t : String) : Bool :=
  searchYearGo false t.toList

/-- The release-heading test applied to a heading's collapsed text. -/
def isReleaseHeading (t : String) : Bool :=
  containsReleaseWord t && containsYearToken t

/-- `" ".join(h.get_text(" ", strip=True).split())`: a heading's
whitespace-collapsed text. -/
def headingText (n : HNode) : String :=
  collapseWs (getTextStripNode " " n)

/-- Characters kept by the slug substitution (`[a-z0-9]` after
lowercasing). -/
def isSlugKeep (c : Char) : Bool :=
  ('a' ≤ c && c ≤ 'z') || c.isDigit

/-- `re.sub(r"[^a-z0-9]+", "-", ·)`: each maximal run of excluded
characters becomes a single dash (the flag records being inside a run). -/
def slugGo : Bool → List Char → List Char
  | _, [] => []
  | inRun, c :: rest =>
    if isSlugKeep c then c :: slugGo false rest
    else if inRun then slugGo true rest
    else '-' :: slugGo true rest

/-- The synthetic identifier:
`re.sub(r"[^a-z0-9]+", "-", heading_text.lower()).strip("-")`. -/
def mkSlug (t : String) : String :=
  stripDashes (String.mk (slugGo false (t.toList.map Char.toLower)))

/-- `soup.find_all(["h2", "h3"])` in document order, with positions. -/
def findAllHeadings (f : Forest) : List (HPath × HNode) :=
  (preorderF f).filter
    (fun q => isElemNode q.2 && (tagName q.2 == "h2" || tagName q.2 == "h3"))

/-- The loop over `headings` looking for the first release heading; returns
its position, node, collapsed text, and the headings after it. -/
def findTargetHeading :
    List (HPath × HNode) → Option (HPath × HNode × String × List (HPath × HNode))
  | [] => none
  | (p, n) :: rest =>
    let t := headingText n
    if isReleaseHeading t then some (p, n, t, rest) else findTargetHeading rest

/-- bs4 `node != end` where `end` may be absent (`None`). -/
def optBeqNode (n : HNode) : Option HNode → Bool
  | none => false
  | some e => nodeBeq n e

/-- The chunk-collecting loop: `node = start`, then repeatedly stop when
`node` equals `end` (bs4 content equality), append `str(node)`, and step to
`node.find_next_sibling()` (the next sibling that is an element, skipping
string siblings), stopping at the end of the sibling list.  `cur` is the
pending current node and the list holds its remaining siblings. -/
def chunkGo (endN : Option HNode) (cur : HNode) : List HNode → List HNode
  | [] => if optBeqNode cur endN then [] else [cur]
  | n :: rest =>
    if optBeqNode cur endN then []
    else if isElemNode n then cur :: chunkGo endN n rest
    else chunkGo endN cur rest

/-- `extract_latest_by_release_heading(soup)`. -/
def extract_latest_by_release_heading (f : Forest) :
    Option (String × String × String) :=
  match findTargetHeading (findAllHeadings f) with
  | none => none
  | some (p, start, heading_text, restHeadings) =>
    let synthetic_id := mkSlug heading_text
    let endN : Option HNode :=
      ((restHeadings.filter (fun q => isReleaseHeading (headingText q.2))).head?).map
        (fun q => q.2)
    let chunks := chunkGo endN start (siblingsAfter f p)
    let extracted := normalize_text (joinSep "\n" (chunks.map renderNode))
    some (synthetic_id, heading_text, extracted)

/-! ## `post_to_slack` -/

def BRAZE_HOME : String := "https://www.braze.com/docs/releases/home"

/-- `post_to_slack(title, summary, source_url)`.  `webhookVar` is the
`SLACK_WEBHOOK_URL` environment variable (`none` raises `KeyError`);
`postOutcome` is the outcome of `requests.post` (transport error, or the
response's HTTP status).  The function raises on a status of 400 or more
(first via the explicit check, while `raise_for_status()` covers the same
400–599 range), and returns normally otherwise. -/
def post_to_slack (webhookVar : Option String) (postOutcome : Except String Nat)
    (title summary source_url : String) : Except String Unit :=
  match webhookVar with
  | none => .error "KeyError: SLACK_WEBHOOK_URL"
  | some _ =>
    let summary := pstrip summary
    let summary :=
      if 3500 < summary.length then pyslice summary 3500 ++ "\n…(truncated)"
      else summary
    let _text := "*Braze Release Notes: " ++ title ++ "*\n\n" ++ summary ++
      "\n\n<" ++ source_url ++ "|View full release notes>"
    match postOutcome with
    | .error e => .error e
    | .ok status =>
      if 400 ≤ status then .error ("Slack webhook error " ++ toString status)
      else if 400 ≤ status && status < 600 then .error "HTTPError"
      else .ok ()

/-! ## The run (`main`) -/

/-- The outcomes the run's external collaborators supply: the cursor file's
contents (`none` when absent), the fetch result, the Summarizer call's
outcome, the webhook environment variable and the webhook POST outcome. -/
structure Env where
  cursorFile : Option String
  fetchResult : Except String String
  summarizeResult : Except String String
  slackWebhook : Option String
  slackPost : Except String Nat

/-- Observable effects of one run, in order. -/
inductive Event where
  | summarize : String → Event
  | notify : String → String → String → Event
  | notifyOk : Event
  | writeCursor : String → Event
deriving DecidableEq

deriving instance DecidableEq for Except

/-- What a run produces: its outcome (normal return or raised error), the
ordered effect trace, the cursor file afterwards, and the printed lines. -/
structure RunResult where
  outcome : Except String Unit
  events : List Event
  cursorFileAfter : Option String
  printed : List String
deriving DecidableEq

/-- `str(value)` as used in the f-string prints (exact for strings, the
only case the program relies on). -/
def pyStrJson : PyJson → String
  | .str s => s
  | .num n => toString n
  | .bool true => "True"
  | .bool false => "False"
  | .null => "None"
  | j => dumpVal 0 j

/-- Lines 182–190 of `main`: primary strategy first, deriving the title
from the identifier (`latest_id.replace("-", " ").title()`), otherwise the
secondary strategy (which supplies its own title). -/
def mainDetect (soup : Forest) : Option (String × String × String) :=
  match extract_latest_by_details_title soup with
  | some (latest_id, extracted_text) =>
    some (latest_id, pyTitle (charReplace latest_id '-' ' '), extracted_text)
  | none => extract_latest_by_release_heading soup

/-- `main()`: load the cursor, fetch, detect, compare, and (only on a new
identifier) summarize, notify, and rewrite the cursor — each step gated on
the previous one's success. -/
def runMain (env : Env) : RunResult :=
  match load_state env.cursorFile with
  | .obj fields =>
    let last_seen := dictGet fields "last_seen_id" (.str "")
    match env.fetchResult with
    | .error e => ⟨.error e, [], env.cursorFile, []⟩
    | .ok html =>
      let soup := parseHtml html
      match mainDetect soup with
      | none =>
        ⟨.error "Could not detect latest release section on the page.", [],
         env.cursorFile, []⟩
      | some (latest_id, title, extracted_text) =>
        if jsonEqStr last_seen latest_id then
          ⟨.ok (), [], env.cursorFile,
           ["No new release detected (last_seen_id=" ++ pyStrJson last_seen ++ ")."]⟩
        else
          let extracted_text := pyslice extracted_text 20000
          match env.summarizeResult with
          | .error e => ⟨.error e, [.summarize extracted_text], env.cursorFile, []⟩
          | .ok summary =>
            match post_to_slack env.slackWebhook env.slackPost title summary
                BRAZE_HOME with
            | .error e =>
              ⟨.error e,
               [.summarize extracted_text, .notify title summary BRAZE_HOME],
               env.cursorFile, []⟩
            | .ok _ =>
              let newFields := dictSet fields "last_seen_id" (.str latest_id)
              let contents := save_state (.obj newFields)
              ⟨.ok (),
               [.summarize extracted_text, .notify title summary BRAZE_HOME,
                .notifyOk, .writeCursor contents],
               some contents,
               ["Alert posted. Updated last_seen_id to " ++ latest_id ++ "."]⟩
  | _ => ⟨.error "AttributeError: the loaded state has no attribute get", [],
          env.cursorFile, []⟩

/-- A sample environment used by several sanity checks below. -/
def envSample : Env :=
  { cursorFile := some "\x7b\"last_seen_id\": \"old\"\x7d"
    fetchResult := .ok "<div class=\"details_title\" id=\"a1\"></div>"
    summarizeResult := .ok "sum"
    slackWebhook := some "https://hooks.example/x"
    slackPost := .ok 200 }


/-! ## Auxiliary definitions used by the theorems -/

/-- No three consecutive newlines anywhere (the strings produced by the
newline-collapsing substitution satisfy this, and on such strings the
substitution is the identity). -/
def okRuns : List Char → Bool
  | a :: b :: c :: rest =>
    !(a = '\n' && b = '\n' && c = '\n') && okRuns (b :: c :: rest)
  | _ => true

/-- Modelled from the spec: the claim's description of the secondary
strategy's body — the matching heading together with its following sibling
nodes, up to (but not including) the next heading that also matches the
release-heading pattern, or through the end when no later heading matches —
rendered and joined the same way the code renders its chunks. -/
def claimBodyChunks (f : Forest) : Option (List HNode) :=
  match findTargetHeading (findAllHeadings f) with
  | none => none
  | some (p, start, _, restHeadings) =>
    let endN : Option HNode :=
      ((restHeadings.filter (fun q => isReleaseHeading (headingText q.2))).head?).map
        (fun q => q.2)
    some (start :: (siblingsAfter f p).takeWhile (fun n => !optBeqNode n endN))

/-- Modelled from the spec: the claimed body text (chunks rendered, joined
with newlines and normalized exactly as the code does). -/
def claimBody (f : Forest) : Option String :=
  (claimBodyChunks f).map
    (fun chunks => normalize_text (joinSep "\n" (chunks.map renderNode)))

/-- The body chunks the code actually collects, stated declaratively: the
target heading followed by its following sibling elements (string siblings
skipped), cut at the first sibling element markup-equal to the next
release-matching heading; empty when the target heading itself is
markup-equal to it. -/
def amendedChunks (f : Forest) : Option (List HNode) :=
  match findTargetHeading (findAllHeadings f) with
  | none => none
  | some (p, start, _, restHeadings) =>
    let endN : Option HNode :=
      ((restHeadings.filter (fun q => isReleaseHeading (headingText q.2))).head?).map
        (fun q => q.2)
    some (if optBeqNode start endN then []
          else start ::
            (((siblingsAfter f p).filter isElemNode).takeWhile
              (fun n => !optBeqNode n endN)))

/-- The amended body text (same rendering pipeline as the code). -/
def amendedBody (f : Forest) : Option String :=
  (amendedChunks f).map
    (fun chunks => normalize_text (joinSep "\n" (chunks.map renderNode)))

/-- Whether the trace contains a Notifier call. -/
def notifyCalledB (es : List Event) : Bool :=
  es.any (fun e => match e with | .notify _ _ _ => true | _ => false)

/-- Whether the trace contains a successful Notifier return. -/
def notifyOkB (es : List Event) : Bool :=
  es.any (fun e => match e with | .notifyOk => true | _ => false)

/-- Every cursor write in the trace is preceded by a successful Notifier
return: scanning left to right, no `writeCursor` may occur before the first
`notifyOk`. -/
def cursorWriteGated : List Event → Bool
  | [] => true
  | .notifyOk :: _ => true
  | .writeCursor _ :: _ => false
  | .summarize _ :: rest => cursorWriteGated rest
  | .notify _ _ _ :: rest => cursorWriteGated rest

/-- The `last_seen_id` value a loaded state yields via
`state.get("last_seen_id", "")` (only meaningful for dict states, the only
ones the run reads). -/
def lastSeenOf : PyJson → PyJson
  | .obj fields => dictGet fields "last_seen_id" (.str "")
  | _ => .null

/-- Environment used to witness theorems about a skipped (already seen)
release. -/
def envSeen : Env :=
  { cursorFile := some "\x7b\"last_seen_id\": \"a1\"\x7d"
    fetchResult := .ok "<div class=\"details_title\" id=\"a1\"></div>"
    summarizeResult := .error "unused"
    slackWebhook := none
    slackPost := .error "unused" }

/-- Environment used to witness theorems about a failing Notifier (the
webhook answers 500). -/
def envNotifyFail : Env :=
  { cursorFile := some "\x7b\"last_seen_id\": \"old\"\x7d"
    fetchResult := .ok "<div class=\"details_title\" id=\"a1\"></div>"
    summarizeResult := .ok "sum"
    slackWebhook := some "https://hooks.example/x"
    slackPost := .ok 500 }

/-- Environment used to witness the total-failure theorem (a page matching
neither strategy). -/
def envNoMatch : Env :=
  { cursorFile := none
    fetchResult := .ok "<p>nothing to see</p>"
    summarizeResult := .error "unused"
    slackWebhook := none
    slackPost := .error "unused" }

/-- Environment used to witness the Summarizer-truncation theorem. -/
def envFresh : Env :=
  { cursorFile := none
    fetchResult := .ok "<div class=\"details_title\" id=\"a1\"><details>notes</details></div>"
    summarizeResult := .ok "sum"
    slackWebhook := some "https://hooks.example/x"
    slackPost := .ok 200 }

/-- The counterexample document for the body-extent claim: a release
heading, a string sibling carrying body text, then the next release
heading. -/
def cxDoc : Forest :=
  [.elem "h2" [] [.text "Big release 2026"],
   .text "hello body",
   .elem "h2" [] [.text "Small release 2025"]]

/-! ## Theorems -/

/-- Rebuilding a string from its character list is the identity. -/
theorem string_mk_toList (s : String) : String.mk s.toList = s := by
  cases s
  rfl

/-- The length of a rebuilt string is the list's length. -/
theorem string_length_mk (l : List Char) : (String.mk l).length = l.length := rfl

/-- A string's character list has the string's length. -/
theorem string_toList_length (s : String) : s.toList.length = s.length := rfl

/-- The scan of `findTargetHeading` returns the first heading (by collapsed
text) satisfying the release-heading test. -/
theorem findTargetHeading_spec (l : List (HPath × HNode)) :
    (findTargetHeading l).map (fun r => r.2.2.1) =
      (l.map (fun q => headingText q.2)).find? isReleaseHeading := by
  induction l with
  | nil => rfl
  | cons q rest ih =>
    obtain ⟨p, n⟩ := q
    by_cases h : isReleaseHeading (headingText n)
    · simp [findTargetHeading, h, List.find?_cons]
    · simp [findTargetHeading, h, List.find?_cons, ih]

/-- C2.  For every parsed document, the primary locator strategy's returned
identifier is the trimmed `id` of the first `div.details_title[id]` element
in document order; it yields no result (falling through to the secondary
strategy) exactly when no such element exists or that first element's
identifier is empty after trimming whitespace. -/
theorem c2_primary_first_marker_id (f : Forest) :
    (extract_latest_by_details_title f).map Prod.fst =
      (selectDetailsTitle f).head?.bind (fun q =>
        let i := pstrip (attrGetD q.2 "id" "")
        if i = "" then none else some i) := by
  unfold extract_latest_by_details_title
  cases h : selectDetailsTitle f with
  | nil => simp
  | cons hd tl =>
    obtain ⟨p, latest⟩ := hd
    simp only [List.head?_cons, Option.some_bind]
    by_cases hid : pstrip (attrGetD latest "id" "") = ""
    · simp [hid]
    · cases hnext : findNextTag f p "details" <;> simp [hid, hnext]

/-- C3.  The secondary strategy selects the first h2/h3 heading whose
whitespace-collapsed text passes the release-heading test (whole word
"release", case-insensitive, plus a 4-digit token beginning "20"), and its
returned identifier is computed from that heading's text alone by the slug
function (lowercase, collapse non-alphanumeric runs to a single dash, trim
dashes) — so identical heading text always yields the identical
identifier. -/
theorem c3_secondary_synthetic_id (f : Forest) :
    (extract_latest_by_release_heading f).map (fun r => (r.1, r.2.1)) =
      (((findAllHeadings f).map (fun q => headingText q.2)).find?
          isReleaseHeading).map (fun t => (mkSlug t, t)) := by
  rw [← findTargetHeading_spec]
  unfold extract_latest_by_release_heading
  cases h : findTargetHeading (findAllHeadings f) with
  | none => simp
  | some r =>
    obtain ⟨p, n, t, rest⟩ := r
    simp

/-- The chunk-collecting loop, characterized declaratively: starting from
`cur` with sibling list `l`, it returns nothing when `cur` already equals
the end marker, and otherwise `cur` followed by the element siblings up to
(but not including) the first one equal to the end marker. -/
theorem chunkGo_eq (endN : Option HNode) (l : List HNode) (cur : HNode) :
    chunkGo endN cur l =
      if optBeqNode cur endN then []
      else cur :: (l.filter isElemNode).takeWhile (fun n => !optBeqNode n endN) := by
  induction l generalizing cur with
  | nil => simp [chunkGo]
  | cons n rest ih =>
    by_cases hcur : optBeqNode cur endN
    · simp [chunkGo, hcur]
    · by_cases hel : isElemNode n
      · rw [chunkGo, if_neg (by simp [hcur]), if_pos hel]
        rw [List.filter_cons_of_pos hel, List.takeWhile_cons]
        by_cases hend : optBeqNode n endN
        · simp [hcur, hend, ih n]
        · simp [hcur, hend, ih n]
      · rw [chunkGo, if_neg (by simp [hcur]), if_neg hel]
        rw [List.filter_cons_of_neg hel, ih cur]

/-- C4 counterexample.  On a document whose release heading is followed by
a string sibling carrying body text before the next matching heading, the
code's extracted body omits that text, while the claim's description of the
body (heading plus following sibling nodes up to the next matching heading)
includes it. -/
theorem c4_body_counterexample :
    (extract_latest_by_release_heading cxDoc).map (fun r => r.2.2) =
        some "Big release 2026" ∧
    claimBody cxDoc = some "Big release 2026\n\nhello body" ∧
    (extract_latest_by_release_heading cxDoc).map (fun r => r.2.2) ≠
      claimBody cxDoc := by
  refine ⟨rfl, rfl, ?_⟩
  intro h
  rw [show (extract_latest_by_release_heading cxDoc).map (fun r => r.2.2) =
        some "Big release 2026" from rfl,
      show claimBody cxDoc = some "Big release 2026\n\nhello body" from rfl] at h
  simp at h

/-- C4 amended.  The extracted body consists of the matching heading
together with its following sibling elements (string siblings are skipped),
up to (but not including) the first following sibling element markup-equal
to the next release-matching heading of the document, or through the end of
the heading's sibling list when no such sibling occurs (and it is empty when
the target heading itself is markup-equal to that next matching heading). -/
theorem c4_body_amended (f : Forest) :
    (extract_latest_by_release_heading f).map (fun r => r.2.2) = amendedBody f := by
  unfold extract_latest_by_release_heading amendedBody amendedChunks
  cases h : findTargetHeading (findAllHeadings f) with
  | none => simp
  | some r =>
    obtain ⟨p, start, t, rest⟩ := r
    simp only [Option.map_some]
    rw [chunkGo_eq]
    by_cases hse : optBeqNode start
        (((rest.filter (fun q => isReleaseHeading (headingText q.2))).head?).map
          (fun q => q.2))
    · simp [hse]
    · simp [hse]

/-- C8 counterexample.  A 304 response has a non-2xx status, yet the notify
operation returns normally instead of raising. -/
theorem c8_nonsuccess_counterexample :
    post_to_slack (some "https://hooks.example/x") (.ok 304) "T" "S" "U" =
        .ok () ∧
    ¬(200 ≤ 304 ∧ 304 < 300) := by
  exact ⟨rfl, by omega⟩

/-- C8 amended.  Given a configured webhook and a completed POST, the
notify operation raises exactly for statuses of 400 and above (a hard
failure for the run, with no retry); every status below 400 — 2xx and 3xx
alike — returns normally. -/
theorem c8_status_amended (w title summary url : String) (st : Nat) :
    (400 ≤ st →
      ∃ e, post_to_slack (some w) (.ok st) title summary url = .error e) ∧
    (st < 400 → post_to_slack (some w) (.ok st) title summary url = .ok ()) := by
  constructor
  · intro h
    refine ⟨"Slack webhook error " ++ toString st, ?_⟩
    unfold post_to_slack
    simp [h]
  · intro h
    unfold post_to_slack
    have h1 : ¬ (400 ≤ st) := by omega
    simp [h1]

/-- C8 witness: the amended statement at statuses 500 (raises) and 200
(returns normally). -/
theorem c8_status_witness :
    (∃ e, post_to_slack (some "https://hooks.example/x") (.ok 500) "T" "S" "U" =
      .error e) ∧
    post_to_slack (some "https://hooks.example/x") (.ok 200) "T" "S" "U" =
      .ok () :=
  ⟨(c8_status_amended "https://hooks.example/x" "T" "S" "U" 500).1 (by omega),
   (c8_status_amended "https://hooks.example/x" "T" "S" "U" 200).2 (by omega)⟩

/-- C6.  For every run whose fetched document makes both locator strategies
yield no result, the run fails with the descriptive fatal error and invokes
neither the Summarizer nor the Notifier nor the cursor write (empty effect
trace, cursor file unchanged). -/
theorem c6_fatal_when_undetected (env : Env) (fs : List (String × PyJson))
    (html : String)
    (hload : load_state env.cursorFile = .obj fs)
    (hfetch : env.fetchResult = .ok html)
    (h1 : extract_latest_by_details_title (parseHtml html) = none)
    (h2 : extract_latest_by_release_heading (parseHtml html) = none) :
    runMain env =
      ⟨.error "Could not detect latest release section on the page.", [],
       env.cursorFile, []⟩ := by
  have hdet : mainDetect (parseHtml html) = none := by
    simp [mainDetect, h1, h2]
  unfold runMain
  rw [hload, hfetch]
  simp [hdet]

/-- C6 witness: a page matching neither strategy makes the run fail with
the descriptive error and no effects. -/
theorem c6_fatal_witness :
    runMain envNoMatch =
      ⟨.error "Could not detect latest release section on the page.", [],
       envNoMatch.cursorFile, []⟩ :=
  c6_fatal_when_undetected envNoMatch [("last_seen_id", .str "")]
    "<p>nothing to see</p>" rfl rfl rfl rfl

/-- C5.  For every run whose persisted `last_seen_id` equals the detected
identifier, the run exits successfully with no Summarizer call, no Notifier
call and no cursor write (empty effect trace, cursor file unchanged),
printing only the no-new-release notice. -/
theorem c5_skip_when_seen (env : Env) (fs : List (String × PyJson))
    (html lid title ext : String)
    (hload : load_state env.cursorFile = .obj fs)
    (hfetch : env.fetchResult = .ok html)
    (hdet : mainDetect (parseHtml html) = some (lid, title, ext))
    (hseen : jsonEqStr (dictGet fs "last_seen_id" (.str "")) lid = true) :
    runMain env =
      ⟨.ok (), [], env.cursorFile,
       ["No new release detected (last_seen_id=" ++
         pyStrJson (dictGet fs "last_seen_id" (.str "")) ++ ")."]⟩ := by
  unfold runMain
  rw [hload, hfetch]
  simp [hdet, hseen]

/-- C5 witness: cursor already holding the detected id makes the run a
successful no-op. -/
theorem c5_skip_witness :
    runMain envSeen =
      ⟨.ok (), [], envSeen.cursorFile,
       ["No new release detected (last_seen_id=a1)."]⟩ :=
  c5_skip_when_seen envSeen [("last_seen_id", .str "a1")]
    "<div class=\"details_title\" id=\"a1\"></div>" "a1" "A1" "" rfl rfl rfl rfl

/-- C9.  For every run that reaches the Summarizer, the text passed to it is
exactly the 20,000-character slice of the extracted body: text of at most
20,000 characters is passed unchanged, longer text is cut to exactly its
first 20,000 characters. -/
theorem c9_summarizer_cap (env : Env) (fs : List (String × PyJson))
    (html lid title ext : String)
    (hload : load_state env.cursorFile = .obj fs)
    (hfetch : env.fetchResult = .ok html)
    (hdet : mainDetect (parseHtml html) = some (lid, title, ext))
    (hnew : jsonEqStr (dictGet fs "last_seen_id" (.str "")) lid = false) :
    (runMain env).events.head? = some (.summarize (pyslice ext 20000)) ∧
    (ext.length ≤ 20000 → pyslice ext 20000 = ext) ∧
    (20000 < ext.length → (pyslice ext 20000).length = 20000) := by
  refine ⟨?_, ?_, ?_⟩
  · unfold runMain
    rw [hload, hfetch]
    simp only [hdet, hnew]
    cases env.summarizeResult with
    | error e => simp
    | ok summary =>
      cases hpost : post_to_slack env.slackWebhook env.slackPost title summary
          BRAZE_HOME with
      | error e => simp [hpost]
      | ok u => simp [hpost]
  · intro h
    have h2 : ext.toList.length ≤ 20000 := by
      rw [string_toList_length]; exact h
    unfold pyslice
    rw [List.take_of_length_le h2]
    exact string_mk_toList ext
  · intro h
    have h2 : ext.toList.length = ext.length := string_toList_length ext
    unfold pyslice
    rw [string_length_mk, List.length_take]
    omega

/-- C9 witness: a short body passes through the slice unchanged on a run
that reaches the Summarizer. -/
theorem c9_summarizer_cap_witness :
    (runMain envFresh).events.head? = some (.summarize (pyslice "notes" 20000)) ∧
    pyslice "notes" 20000 = "notes" := by
  have h := c9_summarizer_cap envFresh [("last_seen_id", .str "")]
    "<div class=\"details_title\" id=\"a1\"><details>notes</details></div>"
    "a1" "A1" "notes" rfl rfl rfl rfl
  exact ⟨h.1, h.2.1 (by decide)⟩

/-- C1.  For every run: if the Notifier call raises (a call appears in the
trace with no successful return), the cursor file's contents are unchanged
from their pre-run value; and the trace never contains a cursor write
before a successful Notifier return. -/
theorem c1_cursor_gated_on_notify (env : Env) :
    ((notifyCalledB (runMain env).events && !notifyOkB (runMain env).events) =
        true → (runMain env).cursorFileAfter = env.cursorFile) ∧
    cursorWriteGated (runMain env).events = true := by
  unfold runMain
  cases hls : load_state env.cursorFile with
  | obj fields =>
    cases hf : env.fetchResult with
    | error e => simp [notifyCalledB, cursorWriteGated]
    | ok html =>
      cases hdet : mainDetect (parseHtml html) with
      | none => simp [hdet, notifyCalledB, cursorWriteGated]
      | some r =>
        obtain ⟨lid, title, ext⟩ := r
        by_cases hseen :
            jsonEqStr (dictGet fields "last_seen_id" (.str "")) lid = true
        · simp [hdet, hseen, notifyCalledB, cursorWriteGated]
        · cases hsum : env.summarizeResult with
          | error e => simp [hdet, hsum, hseen, notifyCalledB, cursorWriteGated]
          | ok summary =>
            cases hpost : post_to_slack env.slackWebhook env.slackPost title
                summary BRAZE_HOME with
            | error e =>
              simp [hdet, hsum, hseen, hpost, notifyCalledB, notifyOkB,
                cursorWriteGated]
            | ok u =>
              simp [hdet, hsum, hseen, hpost, notifyCalledB, notifyOkB,
                cursorWriteGated]
  | null => simp [notifyCalledB, cursorWriteGated]
  | bool b => simp [notifyCalledB, cursorWriteGated]
  | num n => simp [notifyCalledB, cursorWriteGated]
  | str s => simp [notifyCalledB, cursorWriteGated]
  | arr xs => simp [notifyCalledB, cursorWriteGated]

/-- C1 witness: with the webhook answering 500, the Notifier call raises
and the cursor file is exactly its pre-run contents. -/
theorem c1_notify_fail_witness :
    (notifyCalledB (runMain envNotifyFail).events &&
      !notifyOkB (runMain envNotifyFail).events) = true ∧
    (runMain envNotifyFail).cursorFileAfter = envNotifyFail.cursorFile :=
  ⟨rfl, (c1_cursor_gated_on_notify envNotifyFail).1 rfl⟩

/-- C7.  For every cursor-file state that is absent, empty after whitespace
trimming, or not parseable as JSON, `load_state` returns the default state
without raising, and the cursor it yields is the empty string. -/
theorem c7_cursor_load_defaults (fileContents : Option String)
    (h : fileContents = none ∨
         (∃ raw, fileContents = some raw ∧ pstrip raw = "") ∨
         (∃ raw, fileContents = some raw ∧ parseJson (pstrip raw) = none)) :
    load_state fileContents = defaultState ∧
    lastSeenOf (load_state fileContents) = .str "" := by
  have hl : load_state fileContents = defaultState := by
    rcases h with h | ⟨raw, hr, he⟩ | ⟨raw, hr, hp⟩
    · rw [h]; rfl
    · rw [hr]; unfold load_state; simp [he]
    · rw [hr]
      unfold load_state
      by_cases hemp : pstrip raw = ""
      · simp [hemp]
      · simp [hemp, hp]
  exact ⟨hl, by rw [hl]; rfl⟩

/-- C7 witness: a malformed cursor file loads as the default state with the
empty-string cursor. -/
theorem c7_cursor_load_witness :
    load_state (some "\x7bnot json") = defaultState ∧
    lastSeenOf (load_state (some "\x7bnot json")) = .str "" :=
  c7_cursor_load_defaults (some "\x7bnot json")
    (Or.inr (Or.inr ⟨"\x7bnot json", rfl, rfl⟩))

/-- A list all of whose elements satisfy the predicate is its own
`takeWhile`. -/
theorem takeWhile_all_eq {p : Char → Bool} {l : List Char}
    (h : l.all p = true) : l.takeWhile p = l := by
  induction l with
  | nil => rfl
  | cons a t ih =>
    simp only [List.all_cons, Bool.and_eq_true] at h
    simp [List.takeWhile_cons, h.1, ih h.2]

/-- A list all of whose elements satisfy the predicate has empty
`dropWhile`. -/
theorem dropWhile_all_nil {p : Char → Bool} {l : List Char}
    (h : l.all p = true) : l.dropWhile p = [] := by
  induction l with
  | nil => rfl
  | cons a t ih =>
    simp only [List.all_cons, Bool.and_eq_true] at h
    simp [List.dropWhile_cons, h.1, ih h.2]

/-- Entity decoding is the identity on ampersand-free text (any sufficient
fuel). -/
theorem unescapeGo_eq_self : ∀ (fuel : Nat) (l : List Char), l.length ≤ fuel →
    l.all (fun c => c != '&') = true → unescapeGo fuel l = l := by
  intro fuel
  induction fuel with
  | zero =>
    intro l hl _
    rw [List.length_eq_zero.mp (Nat.le_zero.mp hl)]
    rfl
  | succ n ih =>
    intro l hl h
    cases l with
    | nil => rfl
    | cons c t =>
      simp only [List.all_cons, Bool.and_eq_true, bne_iff_ne, ne_eq] at h
      simp only [List.length_cons] at hl
      rw [unescapeGo, if_neg h.1,
        ih t (by omega) (by simpa [List.all_eq_true] using h.2)]

/-- Entity decoding is the identity on ampersand-free text. -/
theorem unescapeL_eq_self (l : List Char) (h : l.all (fun c => c != '&') = true) :
    unescapeL l = l :=
  unescapeGo_eq_self (l.length + 1) l (by omega) h

/-- Tokenizing text with no markup-significant characters yields a single
text token. -/
theorem tokenizeGo_plain (fuel : Nat) (cs : List Char)
    (hlt : cs.all (fun c => c != '<') = true)
    (hamp : cs.all (fun c => c != '&') = true)
    (hne : cs ≠ []) : tokenizeGo (fuel + 1) cs = [Tok.text cs] := by
  rw [tokenizeGo]
  simp only [takeWhile_all_eq hlt, dropWhile_all_nil hlt]
  simp [hne, unescapeL_eq_self cs hamp]

/-- Parsing text with no `<` and no `&` yields a single text node (or
nothing for the empty string). -/
theorem parseHtml_plain (s : String)
    (h : s.toList.all (fun c => c != '<' && c != '&') = true) :
    parseHtml s = if s.toList = [] then [] else [HNode.text s] := by
  have hlt : s.toList.all (fun c => c != '<') = true := by
    rw [List.all_eq_true] at h ⊢
    intro c hc
    exact (Bool.and_eq_true_iff.mp (h c hc)).1
  have hamp : s.toList.all (fun c => c != '&') = true := by
    rw [List.all_eq_true] at h ⊢
    intro c hc
    exact (Bool.and_eq_true_iff.mp (h c hc)).2
  unfold parseHtml
  by_cases hne : s.toList = []
  · rw [hne]
    simp [tokenizeGo, buildGo, closeAll]
  · rw [if_neg hne, tokenizeGo_plain _ _ hlt hamp hne]
    simp [buildGo, insertNode, closeAll, string_mk_toList]

/-- `okRuns` characterized: no three consecutive newlines occur as an
infix. -/
theorem okRuns_iff (l : List Char) :
    okRuns l = true ↔ ¬ (['\n', '\n', '\n'] <:+: l) := by
  induction l with
  | nil =>
    simp only [okRuns, List.infix_nil]
    simp
  | cons a t ih =>
    cases t with
    | nil =>
      simp only [okRuns]
      constructor
      · intro _ hinf
        have := hinf.length_le
        simp at this
      · intro _
        trivial
    | cons b u =>
      cases u with
      | nil =>
        simp only [okRuns]
        constructor
        · intro _ hinf
          have := hinf.length_le
          simp at this
        · intro _
          trivial
      | cons c rest =>
        rw [okRuns, Bool.and_eq_true_iff]
        constructor
        · rintro ⟨h1, h2⟩ hinf
          rcases List.infix_cons_iff.mp hinf with hp | hi
          · simp only [List.cons_prefix_cons] at hp
            obtain ⟨ha, hb2, hc, -⟩ := hp
            subst ha
            subst hb2
            subst hc
            simp at h1
          · exact (ih.mp h2) hi
        · intro hn
          constructor
          · by_cases ha : a = '\n'
            · by_cases hbb : b = '\n'
              · by_cases hc : c = '\n'
                · exfalso
                  apply hn
                  apply List.infix_cons_iff.mpr
                  left
                  subst ha
                  subst hbb
                  subst hc
                  exact ⟨rest, rfl⟩
                · simp [ha, hbb, hc]
              · simp [ha, hbb]
            · simp [ha]
          · exact ih.mpr
              (fun hi => hn (List.infix_cons_iff.mpr (Or.inr hi)))

/-- `okRuns` holds on every infix of a list satisfying it. -/
theorem okRuns_of_infix {l1 l2 : List Char} (hinf : l1 <:+: l2)
    (h : okRuns l2 = true) : okRuns l1 = true := by
  rw [okRuns_iff] at h ⊢
  exact fun hi => h (hi.trans hinf)

/-- Stripping both ends yields an infix of the original list. -/
theorem stripWhileL_within (p : Char → Bool) (l : List Char) :
    stripWhileL p l <:+: l := by
  unfold stripWhileL
  have h1 : l.dropWhile p <:+ l := List.dropWhile_suffix p
  have h2 : (l.dropWhile p).reverse.dropWhile p <:+ (l.dropWhile p).reverse :=
    List.dropWhile_suffix p
  have h3 : ((l.dropWhile p).reverse.dropWhile p).reverse <+: l.dropWhile p := by
    rw [← List.reverse_suffix]
    simpa using h2
  exact h3.isInfix.trans h1.isInfix

/-- A non-newline head preserves `okRuns`. -/
theorem okRuns_cons_of_head {c : Char} (hc : c ≠ '\n') (T : List Char)
    (hT : okRuns T = true) : okRuns (c :: T) = true := by
  cases T with
  | nil => rfl
  | cons b U =>
    cases U with
    | nil => rfl
    | cons d V =>
      rw [okRuns, Bool.and_eq_true_iff]
      exact ⟨by simp [hc], hT⟩

/-- A single newline before a non-newline head preserves `okRuns`. -/
theorem okRuns_nl_cons {c : Char} (hc : c ≠ '\n') (T : List Char)
    (hT : okRuns (c :: T) = true) : okRuns ('\n' :: c :: T) = true := by
  cases T with
  | nil => rfl
  | cons d V =>
    rw [okRuns, Bool.and_eq_true_iff]
    exact ⟨by simp [hc], hT⟩

/-- An emitted newline run (at most two newlines) before a non-newline head
preserves `okRuns`. -/
theorem okRuns_emit_cons (k : Nat) {c : Char} (hc : c ≠ '\n') (T : List Char)
    (hT : okRuns T = true) : okRuns (emitNlRun k ++ c :: T) = true := by
  have h1 : okRuns (c :: T) = true := okRuns_cons_of_head hc T hT
  have h2 : okRuns ('\n' :: c :: T) = true := okRuns_nl_cons hc T h1
  have h3 : okRuns ('\n' :: '\n' :: c :: T) = true := by
    rw [okRuns, Bool.and_eq_true_iff]
    exact ⟨by simp [hc], h2⟩
  unfold emitNlRun
  split
  · exact h3
  · rename_i hk
    have hk2 : k ≤ 2 := by omega
    interval_cases k
    · simpa using h1
    · simpa using h2
    · exact h3

/-- An emitted newline run on its own satisfies `okRuns`. -/
theorem okRuns_emitNlRun (k : Nat) : okRuns (emitNlRun k) = true := by
  unfold emitNlRun
  split
  · decide
  · rename_i hk
    have hk2 : k ≤ 2 := by omega
    interval_cases k <;> decide

/-- The output of the newline-collapsing scan never contains three
consecutive newlines. -/
theorem okRuns_collapseNlGo (l : List Char) :
    ∀ pending : Nat, okRuns (collapseNlGo pending l) = true := by
  induction l with
  | nil =>
    intro pending
    rw [collapseNlGo]
    exact okRuns_emitNlRun pending
  | cons c t ih =>
    intro pending
    by_cases hc : c = '\n'
    · subst hc
      rw [collapseNlGo, if_pos rfl]
      exact ih (pending + 1)
    · rw [collapseNlGo, if_neg hc]
      exact okRuns_emit_cons pending hc (collapseNlGo 0 t) (ih 0)

/-- On input whose pending run plus contents never reach three consecutive
newlines, the collapsing scan is the identity (it reconstructs the pending
run and the input). -/
theorem collapseNlGo_eq_self (l : List Char) :
    ∀ pending : Nat, pending ≤ 2 →
      okRuns (List.replicate pending '\n' ++ l) = true →
      collapseNlGo pending l = List.replicate pending '\n' ++ l := by
  induction l with
  | nil =>
    intro pending hp _
    rw [collapseNlGo]
    unfold emitNlRun
    rw [if_neg (by omega)]
    simp
  | cons c t ih =>
    intro pending hp hok
    by_cases hc : c = '\n'
    · subst hc
      rw [collapseNlGo, if_pos rfl]
      have hrep : List.replicate pending '\n' ++ '\n' :: t =
          List.replicate (pending + 1) '\n' ++ t := by
        rw [List.replicate_succ']
        simp
      have hp1 : pending + 1 ≤ 2 := by
        by_contra hgt
        have hpend : pending = 2 := by omega
        subst hpend
        rw [okRuns_iff] at hok
        exact hok (List.IsPrefix.isInfix ⟨t, rfl⟩)
      rw [ih (pending + 1) hp1 (by rw [← hrep]; exact hok), hrep]
    · rw [collapseNlGo, if_neg hc]
      have hokt : okRuns t = true := by
        refine okRuns_of_infix ?_ hok
        have hsuf : t <:+ List.replicate pending '\n' ++ c :: t :=
          (List.suffix_cons c t).trans (List.suffix_append _ _)
        exact hsuf.isInfix
      rw [ih 0 (by omega) (by simpa using hokt)]
      unfold emitNlRun
      rw [if_neg (by omega)]
      simp

/-- The collapsing substitution fixes strings with no triple-newline run. -/
theorem collapseNlS_eq_self (y : String) (h : okRuns y.toList = true) :
    collapseNlS y = y := by
  unfold collapseNlS collapseNl
  rw [collapseNlGo_eq_self y.toList 0 (by omega) (by simpa using h)]
  simp [string_mk_toList]

/-- `dropWhile` is idempotent. -/
theorem dropWhile_dropWhile (p : Char → Bool) (l : List Char) :
    (l.dropWhile p).dropWhile p = l.dropWhile p := by
  induction l with
  | nil => rfl
  | cons a t ih =>
    by_cases h : p a
    · simp [List.dropWhile_cons, h, ih]
    · simp [List.dropWhile_cons, h]

/-- Nonempty prefixes share the original's head. -/
theorem prefix_head_eq {l1 l2 : List Char} (h : l1 <+: l2) (hne : l1 ≠ []) :
    l1.head? = l2.head? := by
  obtain ⟨t, rfl⟩ := h
  cases l1 with
  | nil => exact absurd rfl hne
  | cons a u => rfl

/-- The head surviving a `dropWhile` fails the predicate. -/
theorem head_dropWhile_false (p : Char → Bool) (l : List Char) :
    ∀ c, (l.dropWhile p).head? = some c → p c = false := by
  induction l with
  | nil =>
    intro c h
    simp at h
  | cons a t ih =>
    intro c h
    by_cases hp : p a
    · rw [List.dropWhile_cons, if_pos hp] at h
      exact ih c h
    · rw [List.dropWhile_cons, if_neg hp] at h
      simp only [List.head?_cons, Option.some_inj] at h
      subst h
      simpa using hp

/-- `dropWhile` fixes a list whose head (if any) fails the predicate. -/
theorem dropWhile_eq_self_of_head (p : Char → Bool) (l : List Char)
    (h : ∀ c, l.head? = some c → p c = false) : l.dropWhile p = l := by
  cases l with
  | nil => rfl
  | cons a t => simp [List.dropWhile_cons, h a rfl]

/-- Two-sided stripping is idempotent. -/
theorem stripWhileL_idem (p : Char → Bool) (l : List Char) :
    stripWhileL p (stripWhileL p l) = stripWhileL p l := by
  have hpre : stripWhileL p l <+: l.dropWhile p := by
    rw [← List.reverse_suffix]
    unfold stripWhileL
    simpa using List.dropWhile_suffix (l := (l.dropWhile p).reverse) p
  have hdrop : (stripWhileL p l).dropWhile p = stripWhileL p l := by
    by_cases hne : stripWhileL p l = []
    · rw [hne]
      rfl
    · refine dropWhile_eq_self_of_head p _ (fun c hc => ?_)
      rw [prefix_head_eq hpre hne] at hc
      exact head_dropWhile_false p l c hc
  have hrev : (stripWhileL p l).reverse = (l.dropWhile p).reverse.dropWhile p := by
    unfold stripWhileL
    simp
  conv_lhs => rw [stripWhileL, hdrop, hrev, dropWhile_dropWhile, ← hrev]
  simp

/-- Python strip is idempotent. -/
theorem pstrip_idem (z : String) : pstrip (pstrip z) = pstrip z := by
  unfold pstrip
  rw [show (String.mk (stripWhileL isPySpace z.toList)).toList =
        stripWhileL isPySpace z.toList from rfl]
  rw [stripWhileL_idem]

/-- Decomposing a lone text node is the identity. -/
theorem decompose_text (y : String) :
    decomposeForest [HNode.text y] = [HNode.text y] := by
  simp [decomposeForest, decomposeNode]

/-- The joined text of a lone text node is its contents. -/
theorem getText_single (y : String) : getTextSepF "\n" [HNode.text y] = y := by
  simp [getTextSepF, forestStrings, nodeStrings, joinSep]

/-- The once-normalized text never contains a triple-newline run. -/
theorem okRuns_normalize (s : String) :
    okRuns (normalize_text s).toList = true := by
  show okRuns (stripWhileL isPySpace
    (collapseNl (getTextSepF "\n" (decomposeForest (parseHtml s))).toList)) = true
  exact okRuns_of_infix (stripWhileL_within _ _) (okRuns_collapseNlGo _ 0)

/-- The once-normalized text is already stripped. -/
theorem pstrip_normalize (s : String) :
    pstrip (normalize_text s) = normalize_text s := by
  show pstrip (pstrip (collapseNlS
    (getTextSepF "\n" (decomposeForest (parseHtml s))))) = _
  rw [pstrip_idem]
  rfl

/-- C10 counterexample.  Normalizing decodes character references, so the
normalized text can itself contain markup; renormalizing it re-parses that
markup and drops/re-joins it differently.  Here one pass yields
`a <b>c</b> d`, a second pass yields `a \nc\n d`. -/
theorem c10_normalize_counterexample :
    normalize_text (normalize_text "a &lt;b&gt;c&lt;/b&gt; d") ≠
      normalize_text "a &lt;b&gt;c&lt;/b&gt; d" := by
  have h1 : normalize_text "a &lt;b&gt;c&lt;/b&gt; d" = "a <b>c</b> d" := rfl
  have h2 : normalize_text "a <b>c</b> d" = "a \nc\n d" := rfl
  rw [h1, h2]
  intro hcontra
  simp at hcontra

/-- C10 amended.  The Normalizer is idempotent on every input whose
once-normalized text contains no markup-significant character (no `<` and
no `&`); renormalizing such output parses it as plain text, the newline
collapse fixes it (its runs are already short) and the strip fixes it (it
is already stripped). -/
theorem c10_normalize_amended (s : String)
    (h : (normalize_text s).toList.all (fun c => c != '<' && c != '&') = true) :
    normalize_text (normalize_text s) = normalize_text s := by
  by_cases hemp : (normalize_text s).toList = []
  · have hy0 : normalize_text s = "" := by
      rw [← string_mk_toList (normalize_text s), hemp]
    rw [hy0]
    rfl
  · have hparse : parseHtml (normalize_text s) =
        [HNode.text (normalize_text s)] := by
      rw [parseHtml_plain _ h, if_neg hemp]
    show pstrip (collapseNlS (getTextSepF "\n"
      (decomposeForest (parseHtml (normalize_text s))))) = normalize_text s
    rw [hparse, decompose_text, getText_single,
      collapseNlS_eq_self _ (okRuns_normalize s), pstrip_normalize]

/-- C10 witness: a fragment whose normalized text is markup-free, on which
normalizing twice equals normalizing once. -/
theorem c10_normalize_witness :
    ((normalize_text "<p>hello</p>").toList.all
        (fun c => c != '<' && c != '&') = true) ∧
    normalize_text (normalize_text "<p>hello</p>") =
      normalize_text "<p>hello</p>" :=
  ⟨rfl, c10_normalize_amended "<p>hello</p>" rfl⟩

/-- Sanity check of the model: the cursor-file round trip (parse, update,
dump) behaves as the scenario in the design notes describes. -/
theorem model_sanity_cursor_roundtrip :
    parseJson "\x7b\"last_seen_id\": \"a1\"\x7d" =
        some (.obj [("last_seen_id", .str "a1")]) ∧
    load_state (some "  ") = defaultState ∧
    save_state (.obj [("last_seen_id", .str "a1")]) =
      "\x7b\n  \"last_seen_id\": \"a1\"\n\x7d\n" :=
  ⟨rfl, rfl, rfl⟩

/-- Sanity check of the model: the HTML parser round-trips the marker
element and decodes references in data. -/
theorem model_sanity_parse :
    parseHtml "a &lt;b&gt;c&lt;/b&gt; d" = [.text "a <b>c</b> d"] ∧
    parseHtml "<div class=\"details_title\" id=\"a1\"></div>" =
      [.elem "div" [("class", "details_title"), ("id", "a1")] []] ∧
    renderForest (parseHtml "<div class=\"details_title\" id=\"a1\"></div>") =
      "<div class=\"details_title\" id=\"a1\"></div>" :=
  ⟨rfl, rfl, rfl⟩

/-- Sanity check of the model: a full run on a fresh release summarizes,
notifies, and only then rewrites the cursor, which afterwards holds the new
identifier. -/
theorem model_sanity_success_run :
    (runMain envSample).outcome = .ok () ∧
    (runMain envSample).events =
      [.summarize "", .notify "A1" "sum" BRAZE_HOME, .notifyOk,
       .writeCursor "\x7b\n  \"last_seen_id\": \"a1\"\n\x7d\n"] ∧
    (runMain envSample).cursorFileAfter =
      some "\x7b\n  \"last_seen_id\": \"a1\"\n\x7d\n" :=
  ⟨rfl, rfl, rfl⟩
